import Mathlib

/-!
Verification of the kite search core against its specification.

Shallow embedding of the two source files of the repository:

* `src/abra_rocksdb/src/search.rs` — posting-list codec (`DirectoryListData`),
  the three-valued `DirectoryList` algebra, the query planner
  (`plan_query` / `plan_query_combinator`) and the boolean-program executor
  (`search`).
* `src/kite_rocksdb/src/segment_builder.rs` — the in-memory `SegmentBuilder`
  and `add_document`.

Modelling conventions:

* Machine integers (`u8`, `u16`, `u32`, `i64`) are modelled as `ℕ` / `ℤ`,
  with `% 65536` made explicit where `u16` overflow matters.
* Byte blobs are `List ℕ` (each entry a byte, `< 256`); posting blobs decode
  to `u16` DocId sequences via `decodeBlob` below, exactly as the
  `DirectoryListDataIterator` reads two big-endian bytes at a time.
* Hash maps are modelled as functions into `Option`; hash-map iteration
  order (which Rust leaves unspecified) is modelled by association-list
  order in `Document`.
* `f32` arithmetic in the field-length computation is modelled as exact real
  arithmetic with explicit truncation; the bridging lemmas relate the
  executable `Nat.sqrt`-based definitions to the `Real.sqrt` formulas.
-/

/-- Decode a posting blob: repeatedly read two bytes, big-endian `u16`,
mirroring `DirectoryListDataIterator::next` (`read_exact` of 2 bytes then
`BigEndian::read_u16`); a trailing odd byte fails `read_exact` and ends the
iteration. -/
def decodeBlob : List ℕ → List ℕ
  | b0 :: b1 :: rest => (256 * b0 + b1) :: decodeBlob rest
  | _ => []

/-- `BigEndian::write_u16`: the two bytes of a `u16`, high byte first. -/
def encodeU16 (n : ℕ) : List ℕ := [n / 256 % 256, n % 256]

/-- `itertools::merge` of two iterators: interleave in ascending order,
favoring the first iterator when elements are equal.  Note: it does NOT
collapse duplicates. -/
def listMerge : List ℕ → List ℕ → List ℕ
  | [], b => b
  | a, [] => a
  | a :: as, b :: bs =>
    if a ≤ b then a :: listMerge as (b :: bs) else b :: listMerge (a :: as) bs
termination_by x y => x.length + y.length

/-- The loop of `DirectoryListData::intersection` on decoded sequences:
peek both, emit on equality, otherwise advance the smaller side; stop when
either side is exhausted. -/
def listInter : List ℕ → List ℕ → List ℕ
  | [], _ => []
  | _ :: _, [] => []
  | a :: as, b :: bs =>
    if a = b then a :: listInter as bs
    else if a > b then listInter (a :: as) bs
    else listInter as (b :: bs)
termination_by x y => x.length + y.length

/-- The loop of `DirectoryListData::exclusion` on decoded sequences:
emit from the left when smaller, drop both on equality, advance the right
when it is smaller, and drain the left once the right is exhausted. -/
def listExcl : List ℕ → List ℕ → List ℕ
  | [], _ => []
  | a :: as, [] => a :: listExcl as []
  | a :: as, b :: bs =>
    if a = b then listExcl as bs
    else if a > b then listExcl (a :: as) bs
    else a :: listExcl as (b :: bs)
termination_by x y => x.length + y.length

/-- `DirectoryListData::union` at the byte level: iterate both blobs through
`itertools::merge` and write each emitted DocId back as two big-endian
bytes. -/
def DirectoryListData.union (a b : List ℕ) : List ℕ :=
  ((listMerge (decodeBlob a) (decodeBlob b)).map encodeU16).flatten

/-- `DirectoryListData::intersection` at the byte level. -/
def DirectoryListData.intersection (a b : List ℕ) : List ℕ :=
  ((listInter (decodeBlob a) (decodeBlob b)).map encodeU16).flatten

/-- `DirectoryListData::exclusion` at the byte level. -/
def DirectoryListData.exclusion (a b : List ℕ) : List ℕ :=
  ((listExcl (decodeBlob a) (decodeBlob b)).map encodeU16).flatten

/-- Decoding inverts encoding as long as every DocId fits in a `u16`. -/
theorem decodeBlob_join_map_encodeU16 (l : List ℕ) (h : ∀ x ∈ l, x < 65536) :
    decodeBlob ((l.map encodeU16).flatten) = l := by
  induction l with
  | nil => rfl
  | cons x xs ih =>
    have hx : x < 65536 := h x (by simp)
    have hdiv : x / 256 < 256 := by omega
    show (256 * (x / 256 % 256) + x % 256) :: decodeBlob ((xs.map encodeU16).flatten) = x :: xs
    rw [ih (fun y hy => h y (by simp [hy]))]
    congr 1
    have := Nat.div_add_mod x 256
    omega

/-- Membership in `itertools::merge`: the merged sequence carries exactly the
elements of both inputs (duplicates included). -/
theorem mem_listMerge (x : ℕ) : ∀ (a b : List ℕ), (x ∈ listMerge a b ↔ x ∈ a ∨ x ∈ b) := by
  intro a b
  induction a, b using listMerge.induct with
  | case1 b => simp [listMerge]
  | case2 a => simp [listMerge]
  | case3 a as b bs h ih =>
    have hstep : listMerge (a :: as) (b :: bs) = a :: listMerge as (b :: bs) := by
      simp [listMerge, h]
    rw [hstep]
    simp only [List.mem_cons, ih]
    tauto
  | case4 a as b bs h ih =>
    have hstep : listMerge (a :: as) (b :: bs) = b :: listMerge (a :: as) bs := by
      simp [listMerge, h]
    rw [hstep]
    simp only [List.mem_cons, ih]
    tauto

/-- Membership in the intersection loop, for strictly sorted inputs. -/
theorem mem_listInter (x : ℕ) : ∀ (a b : List ℕ), List.Sorted (· < ·) a →
    List.Sorted (· < ·) b → (x ∈ listInter a b ↔ x ∈ a ∧ x ∈ b) := by
  intro a b
  induction a, b using listInter.induct with
  | case1 b => simp [listInter]
  | case2 a as => simp [listInter]
  | case3 as b bs ih =>
    intro ha hb
    have ha' := List.sorted_cons.mp ha
    have hb' := List.sorted_cons.mp hb
    have hrec := ih ha'.2 hb'.2
    have hstep : listInter (b :: as) (b :: bs) = b :: listInter as bs := by
      simp [listInter]
    rw [hstep]
    simp only [List.mem_cons, hrec]
    constructor
    · rintro (rfl | ⟨h1, h2⟩)
      · exact ⟨Or.inl rfl, Or.inl rfl⟩
      · exact ⟨Or.inr h1, Or.inr h2⟩
    · rintro ⟨rfl | h1, h2⟩
      · exact Or.inl rfl
      · right
        refine ⟨h1, ?_⟩
        rcases h2 with rfl | h2
        · exact absurd (ha'.1 x h1) (lt_irrefl x)
        · exact h2
  | case4 a as b bs hne h ih =>
    intro ha hb
    have hb' := List.sorted_cons.mp hb
    have hrec := ih ha hb'.2
    have hstep : listInter (a :: as) (b :: bs) = listInter (a :: as) bs := by
      simp [listInter, hne, h]
    rw [hstep, hrec]
    simp only [List.mem_cons]
    constructor
    · rintro ⟨h1, h2⟩
      exact ⟨h1, Or.inr h2⟩
    · rintro ⟨h1, rfl | h2⟩
      · rcases h1 with rfl | h1
        · omega
        · have := (List.sorted_cons.mp ha).1 x h1
          omega
      · exact ⟨h1, h2⟩
  | case5 a as b bs hne h ih =>
    intro ha hb
    have ha' := List.sorted_cons.mp ha
    have hrec := ih ha'.2 hb
    have hstep : listInter (a :: as) (b :: bs) = listInter as (b :: bs) := by
      simp [listInter, hne, h]
    rw [hstep, hrec]
    simp only [List.mem_cons]
    constructor
    · rintro ⟨h1, h2⟩
      exact ⟨Or.inr h1, h2⟩
    · rintro ⟨rfl | h1, h2⟩
      · rcases h2 with rfl | h2
        · omega
        · have := (List.sorted_cons.mp hb).1 x h2
          omega
      · exact ⟨h1, h2⟩

/-- Membership in the exclusion loop, for strictly sorted inputs. -/
theorem mem_listExcl (x : ℕ) : ∀ (a b : List ℕ), List.Sorted (· < ·) a →
    List.Sorted (· < ·) b → (x ∈ listExcl a b ↔ x ∈ a ∧ x ∉ b) := by
  intro a b
  induction a, b using listExcl.induct with
  | case1 b => simp [listExcl]
  | case2 a as ih =>
    intro ha _
    have ha' := List.sorted_cons.mp ha
    have hrec := ih ha'.2 (by simp)
    have hstep : listExcl (a :: as) [] = a :: listExcl as [] := by
      simp [listExcl]
    rw [hstep]
    simp only [List.mem_cons, hrec]
    simp
  | case3 as b bs ih =>
    intro ha hb
    have ha' := List.sorted_cons.mp ha
    have hb' := List.sorted_cons.mp hb
    have hrec := ih ha'.2 hb'.2
    have hstep : listExcl (b :: as) (b :: bs) = listExcl as bs := by
      simp [listExcl]
    rw [hstep, hrec]
    simp only [List.mem_cons]
    constructor
    · rintro ⟨h1, h2⟩
      refine ⟨Or.inr h1, ?_⟩
      rintro (rfl | h3)
      · exact absurd (ha'.1 x h1) (lt_irrefl x)
      · exact h2 h3
    · rintro ⟨rfl | h1, h2⟩
      · exact absurd (Or.inl rfl) h2
      · exact ⟨h1, fun h3 => h2 (Or.inr h3)⟩
  | case4 a as b bs hne h ih =>
    intro ha hb
    have hb' := List.sorted_cons.mp hb
    have hrec := ih ha hb'.2
    have hstep : listExcl (a :: as) (b :: bs) = listExcl (a :: as) bs := by
      simp [listExcl, hne, h]
    rw [hstep, hrec]
    simp only [List.mem_cons]
    constructor
    · rintro ⟨h1, h2⟩
      refine ⟨h1, ?_⟩
      rintro (rfl | h3)
      · rcases h1 with rfl | h1
        · omega
        · have := (List.sorted_cons.mp ha).1 x h1
          omega
      · exact h2 h3
    · rintro ⟨h1, h2⟩
      exact ⟨h1, fun h3 => h2 (Or.inr h3)⟩
  | case5 a as b bs hne h ih =>
    intro ha hb
    have ha' := List.sorted_cons.mp ha
    have hrec := ih ha'.2 hb
    have hstep : listExcl (a :: as) (b :: bs) = a :: listExcl as (b :: bs) := by
      simp [listExcl, hne, h]
    rw [hstep]
    simp only [List.mem_cons, hrec]
    constructor
    · rintro (rfl | ⟨h1, h2⟩)
      · refine ⟨Or.inl rfl, ?_⟩
        rintro (rfl | h3)
        · omega
        · have := (List.sorted_cons.mp hb).1 x h3
          omega
      · exact ⟨Or.inr h1, h2⟩
    · rintro ⟨rfl | h1, h2⟩
      · exact Or.inl rfl
      · exact Or.inr ⟨h1, h2⟩

/-- The tagged value of the boolean stack, transcribed from `enum
DirectoryList` in `search.rs`.  The `DirectoryListData` payload of `Sparse`
is modelled by its decoded DocId sequence (see `decodeBlob`); the byte-level
combinators factor through the decoded-level ones by
`decodeBlob_join_map_encodeU16`. -/
inductive DirectoryList where
  | Empty
  | Full
  | Sparse (data : List ℕ) (negated : Bool)
deriving DecidableEq

namespace DirectoryList

/-- `DirectoryList::intersection`, case for case from the source. -/
def intersection (self other : DirectoryList) : DirectoryList :=
  match self with
  | Empty => Empty
  | Full => other
  | Sparse data false =>
    match other with
    | Empty => Empty
    | Full => Sparse data false
    | Sparse otherData false => Sparse (listInter data otherData) false
    | Sparse otherData true => Sparse (listExcl data otherData) false
  | Sparse data true =>
    match other with
    | Empty => Empty
    | Full => Sparse data true
    | Sparse otherData false => Sparse (listExcl otherData data) false
    | Sparse otherData true => Sparse (listMerge data otherData) true

/-- `DirectoryList::union`, case for case from the source. -/
def union (self other : DirectoryList) : DirectoryList :=
  match self with
  | Empty => other
  | Full => Full
  | Sparse data false =>
    match other with
    | Empty => Sparse data false
    | Full => Full
    | Sparse otherData false => Sparse (listMerge data otherData) false
    | Sparse otherData true => Sparse (listExcl otherData data) true
  | Sparse data true =>
    match other with
    | Empty => Sparse data true
    | Full => Full
    | Sparse otherData false => Sparse (listExcl data otherData) true
    | Sparse otherData true => Sparse (listInter data otherData) true

/-- `DirectoryList::exclusion`, case for case from the source. -/
def exclusion (self other : DirectoryList) : DirectoryList :=
  match self with
  | Empty => Empty
  | Full =>
    match other with
    | Empty => Full
    | Full => Empty
    | Sparse otherData false => Sparse otherData true
    | Sparse otherData true => Sparse otherData false
  | Sparse data false =>
    match other with
    | Empty => Sparse data false
    | Full => Full
    | Sparse otherData false => Sparse (listExcl data otherData) false
    | Sparse otherData true => Sparse (listInter data otherData) false
  | Sparse data true =>
    match other with
    | Empty => Sparse data true
    | Full => Full
    | Sparse otherData false => Sparse (listMerge data otherData) true
    | Sparse otherData true => Sparse (listExcl otherData data) false

/-- The set of DocIds a `DirectoryList` stands for, relative to a segment
universe `U` (spec §3 and §4.5 step 3): `Empty` denotes nothing, `Full`
denotes all of `U`, `Sparse(d,false)` denotes `d`, `Sparse(d,true)` the
complement of `d` within `U`. -/
def denotes (U : List ℕ) : DirectoryList → ℕ → Prop
  | Empty, _ => False
  | Full, x => x ∈ U
  | Sparse d false, x => x ∈ d
  | Sparse d true, x => x ∈ U ∧ x ∉ d

/-- Well-formed operand relative to a universe `U`: sparse data is strictly
sorted (sorted, duplicate-free) and contained in `U`. -/
def wf (U : List ℕ) : DirectoryList → Prop
  | Sparse d _ => List.Sorted (· < ·) d ∧ ∀ x ∈ d, x ∈ U
  | _ => True

def isSparse : DirectoryList → Bool
  | Sparse _ _ => true
  | _ => false

theorem denotes_intersection (U : List ℕ) (l r : DirectoryList) (hl : wf U l)
    (hr : wf U r) (x : ℕ) :
    (l.intersection r).denotes U x ↔ (l.denotes U x ∧ r.denotes U x) := by
  cases l with
  | Empty => cases r <;> simp [intersection, denotes]
  | Full =>
    cases r with
    | Empty => simp [intersection, denotes]
    | Full => simp [intersection, denotes]
    | Sparse b nb =>
      obtain ⟨hb, hbU⟩ := hr
      have h1 := hbU x
      cases nb <;> simp only [intersection, denotes] <;> try tauto
  | Sparse a na =>
    obtain ⟨ha, haU⟩ := hl
    have h2 := haU x
    cases r with
    | Empty => cases na <;> simp [intersection, denotes]
    | Full => cases na <;> simp only [intersection, denotes] <;> tauto
    | Sparse b nb =>
      obtain ⟨hb, hbU⟩ := hr
      have h3 := hbU x
      cases na <;> cases nb <;> simp only [intersection, denotes]
      · rw [mem_listInter x a b ha hb]
      · rw [mem_listExcl x a b ha hb]; tauto
      · rw [mem_listExcl x b a hb ha]; tauto
      · rw [mem_listMerge x a b]; tauto

theorem denotes_union (U : List ℕ) (l r : DirectoryList) (hl : wf U l)
    (hr : wf U r) (x : ℕ) :
    (l.union r).denotes U x ↔ (l.denotes U x ∨ r.denotes U x) := by
  cases l with
  | Empty => cases r <;> simp [union, denotes]
  | Full =>
    cases r with
    | Empty => simp [union, denotes]
    | Full => simp [union, denotes]
    | Sparse b nb =>
      obtain ⟨hb, hbU⟩ := hr
      have h1 := hbU x
      cases nb <;> simp only [union, denotes] <;> tauto
  | Sparse a na =>
    obtain ⟨ha, haU⟩ := hl
    have h2 := haU x
    cases r with
    | Empty => cases na <;> simp [union, denotes]
    | Full => cases na <;> simp only [union, denotes] <;> tauto
    | Sparse b nb =>
      obtain ⟨hb, hbU⟩ := hr
      have h3 := hbU x
      cases na <;> cases nb <;> simp only [union, denotes]
      · exact mem_listMerge x a b
      · rw [mem_listExcl x b a hb ha]; tauto
      · rw [mem_listExcl x a b ha hb]; tauto
      · rw [mem_listInter x a b ha hb]; tauto

theorem denotes_exclusion (U : List ℕ) (l r : DirectoryList) (hl : wf U l)
    (hr : wf U r) (hnf : l.isSparse = false ∨ r ≠ Full) (x : ℕ) :
    (l.exclusion r).denotes U x ↔ (l.denotes U x ∧ ¬ r.denotes U x) := by
  cases l with
  | Empty => cases r <;> simp [exclusion, denotes]
  | Full =>
    cases r with
    | Empty => simp [exclusion, denotes]
    | Full => simp [exclusion, denotes]
    | Sparse b nb =>
      obtain ⟨hb, hbU⟩ := hr
      have h1 := hbU x
      cases nb <;> simp only [exclusion, denotes] <;> try tauto
  | Sparse a na =>
    obtain ⟨ha, haU⟩ := hl
    have h2 := haU x
    cases r with
    | Empty => cases na <;> simp [exclusion, denotes]
    | Full =>
      exfalso
      rcases hnf with h | h
      · cases na <;> simp [isSparse] at h
      · exact h rfl
    | Sparse b nb =>
      obtain ⟨hb, hbU⟩ := hr
      have h3 := hbU x
      cases na <;> cases nb <;> simp only [exclusion, denotes]
      · exact mem_listExcl x a b ha hb
      · rw [mem_listInter x a b ha hb]; tauto
      · rw [mem_listMerge x a b]; tauto
      · rw [mem_listExcl x b a hb ha]; tauto

end DirectoryList

/-- C2: counterexample.  The byte-level union of the blob `[0x00,0x01]`
(which decodes to the DocId list `[1]`) with itself decodes to `[1,1]`:
`itertools::merge` emits a DocId present in both inputs twice, so the output
is neither duplicate-free nor strictly increasing, contrary to the claim
that `union(A,B)` decodes to the sorted set union with equal DocIds emitted
exactly once. -/
theorem union_duplicates_common_docid :
    decodeBlob (DirectoryListData.union [0, 1] [0, 1]) = [1, 1] ∧
    ¬ List.Sorted (· < ·) (decodeBlob (DirectoryListData.union [0, 1] [0, 1])) := by
  have h : decodeBlob (DirectoryListData.union [0, 1] [0, 1]) = [1, 1] := by
    simp [DirectoryListData.union, listMerge, decodeBlob, encodeU16]
  refine ⟨h, ?_⟩
  rw [h]
  decide

/-- C3: counterexample.  In the Table T1 cell `Sparse(a,false) \ Full`, the
code returns `Full`: against the universe `U = [0]` with `a = [0]` the
result denotes `{0}`, while the set-theoretically correct result
`a \ U = ∅` does not contain `0`. -/
theorem exclusion_sparse_full_denotes_universe :
    DirectoryList.exclusion (DirectoryList.Sparse [0] false) DirectoryList.Full
        = DirectoryList.Full ∧
    DirectoryList.denotes [0] DirectoryList.Full 0 ∧
    ¬ ((DirectoryList.Sparse [0] false).denotes [0] 0 ∧
        ¬ DirectoryList.Full.denotes [0] 0) := by
  refine ⟨rfl, ?_, ?_⟩
  · show (0 : ℕ) ∈ [0]
    simp
  · rintro ⟨-, h⟩
    exact h (by simp [DirectoryList.denotes])

/-- C3 (amended): for well-formed operands over any universe `U` containing
all their DocIds, every Table T1 cell denotes the set-theoretically correct
result, EXCEPT exclusion with a Sparse left operand and a Full right
operand, which returns `Full` (denoting the whole universe) instead of a
value denoting the empty set. -/
theorem table_t1_correct (U : List ℕ) (l r : DirectoryList)
    (hl : DirectoryList.wf U l) (hr : DirectoryList.wf U r) :
    (∀ x, (l.intersection r).denotes U x ↔ (l.denotes U x ∧ r.denotes U x)) ∧
    (∀ x, (l.union r).denotes U x ↔ (l.denotes U x ∨ r.denotes U x)) ∧
    (l.isSparse = false ∨ r ≠ DirectoryList.Full →
      ∀ x, (l.exclusion r).denotes U x ↔ (l.denotes U x ∧ ¬ r.denotes U x)) ∧
    (∀ a n, DirectoryList.exclusion (DirectoryList.Sparse a n) DirectoryList.Full
      = DirectoryList.Full) := by
  refine ⟨fun x => DirectoryList.denotes_intersection U l r hl hr x,
         fun x => DirectoryList.denotes_union U l r hl hr x,
         fun hnf x => DirectoryList.denotes_exclusion U l r hl hr hnf x,
         fun a n => ?_⟩
  cases n <;> rfl

/-- Witness for `table_t1_correct` at concrete well-formed operands. -/
theorem table_t1_correct_witness :
    ((DirectoryList.Sparse [1] false).intersection
        (DirectoryList.Sparse [2] false)).denotes [1, 2] 1 ↔
      ((DirectoryList.Sparse [1] false).denotes [1, 2] 1 ∧
       (DirectoryList.Sparse [2] false).denotes [1, 2] 1) :=
  (table_t1_correct [1, 2] (DirectoryList.Sparse [1] false)
    (DirectoryList.Sparse [2] false)
    ⟨by decide, by decide⟩ ⟨by decide, by decide⟩).1 1

/-- C4: counterexample.  `exclusion(Full, Sparse([1],false))` — the right
operand denoting the nonempty set `{1}` — does not return `Full`; it
returns the complement `Sparse([1],true)`. -/
theorem exclusion_full_sparse_not_full :
    DirectoryList.exclusion DirectoryList.Full (DirectoryList.Sparse [1] false)
      ≠ DirectoryList.Full := by
  decide

/-- C4 (amended): exclusion with `Full` on the left returns the complement
of the right operand — `Sparse(b,¬n)` for a Sparse operand and `Empty` for
`Full` — never `Full` for a nonempty right operand. -/
theorem exclusion_full_left_complement (b : List ℕ) (n : Bool) :
    DirectoryList.exclusion DirectoryList.Full (DirectoryList.Sparse b n)
        = DirectoryList.Sparse b (!n) ∧
    DirectoryList.exclusion DirectoryList.Full DirectoryList.Full
        = DirectoryList.Empty := by
  cases n <;> exact ⟨rfl, rfl⟩

/-- C5: counterexample.  Intersecting two disjoint sparse lists — both with
sorted, duplicate-free data — yields `Sparse` of the empty list instead of
the canonical `Empty`. -/
theorem intersection_disjoint_sparse_empty_data :
    DirectoryList.intersection (DirectoryList.Sparse [1] false)
        (DirectoryList.Sparse [2] false)
      = DirectoryList.Sparse [] false := by
  simp [DirectoryList.intersection, listInter]

/-- C5 (amended): the operations never canonicalize.  On two `Sparse`
operands, each of `intersection`, `union` and `exclusion` always returns a
`Sparse` value — including `Sparse` of empty data when the data-level
result is empty — and never collapses to `Empty` or `Full`. -/
theorem sparse_ops_return_sparse (a b : List ℕ) (na nb : Bool) :
    (∃ c nc, DirectoryList.intersection (DirectoryList.Sparse a na)
        (DirectoryList.Sparse b nb) = DirectoryList.Sparse c nc) ∧
    (∃ c nc, DirectoryList.union (DirectoryList.Sparse a na)
        (DirectoryList.Sparse b nb) = DirectoryList.Sparse c nc) ∧
    (∃ c nc, DirectoryList.exclusion (DirectoryList.Sparse a na)
        (DirectoryList.Sparse b nb) = DirectoryList.Sparse c nc) := by
  cases na <;> cases nb <;>
    exact ⟨⟨_, _, rfl⟩, ⟨_, _, rfl⟩, ⟨_, _, rfl⟩⟩

/-- `enum BooleanQueryOp` from `search.rs`.  `FieldRef` and `TermRef` are
dense ordinals; both are modelled as `ℕ`. -/
inductive BooleanQueryOp where
  | Zero
  | One
  | Load (fieldRef termRef : ℕ)
  | And
  | Or
  | AndNot
deriving DecidableEq

/-- `enum CompoundScorer` from `search.rs`. -/
inductive CompoundScorer where
  | Avg
  | Max
deriving DecidableEq

/-- `enum ScoreFunctionOp` from `search.rs`.  `f64` literals are modelled as
`ℚ`; the opaque `TermScorer` configuration payload of `TermScore` is never
inspected by the planner or executor and is omitted. -/
inductive ScoreFunctionOp where
  | Literal (x : ℚ)
  | TermScore (fieldRef termRef : ℕ)
  | CompoundScorer (n : ℕ) (scorer : CompoundScorer)
deriving DecidableEq

/-- The `abra::query::Query` AST, reconstructed from the `match *query` in
`plan_query` (the crate defining it is not part of this repository).  Field
names and term byte strings are opaque lookup keys, modelled as `ℕ`; the
unused `matcher` payload of `MatchTerm` is omitted. -/
inductive Query where
  | MatchAll (score : ℚ)
  | MatchNone
  | MatchTerm (field term : ℕ)
  | Conjunction (queries : List Query)
  | Disjunction (queries : List Query)
  | NDisjunction (queries : List Query) (minimumShouldMatch : ℕ)
  | DisjunctionMax (queries : List Query)
  | Filter (query filter : Query)
  | Exclude (query exclude : Query)

/-- Result of `self.snapshot.get(key)` for a posting-list key:
`Ok(Some(bytes))`, `Ok(None)`, or `Err(e)`. -/
inductive SnapGet where
  | found (blob : List ℕ)
  | missing
  | failure
deriving DecidableEq

/-- The parts of `RocksDBIndexReader` the planner and executor read: the
store's term dictionary (term bytes → `TermRef`), the schema (field name →
`FieldRef`), and the snapshot, keyed by the `(field_ref.ord, term_ref.ord)`
pair used to build the posting-list key (the chunk id is the constant `2`
in the source and is dropped). -/
structure RocksDBIndexReader where
  termDictionary : ℕ → Option ℕ
  schema : ℕ → Option ℕ
  snapshot : ℕ → ℕ → SnapGet

mutual

/-- `RocksDBIndexReader::plan_query`: the boolean and score opcode sequences
appended to the plan for one query node, in emission order. -/
def planQuery (reader : RocksDBIndexReader) :
    Query → List BooleanQueryOp × List ScoreFunctionOp
  | .MatchAll score => ([.One], [.Literal score])
  | .MatchNone => ([.Zero], [.Literal 0])
  | .MatchTerm field term =>
    match reader.termDictionary term with
    | none => ([.Zero], [])
    | some termRef =>
      match reader.schema field with
      | none => ([.Zero], [])
      | some fieldRef => ([.Load fieldRef termRef], [.TermScore fieldRef termRef])
  | .Conjunction queries => planQueryCombinator reader queries .And .Avg
  | .Disjunction queries => planQueryCombinator reader queries .Or .Avg
  | .NDisjunction queries _ => planQueryCombinator reader queries .Or .Avg
  | .DisjunctionMax queries => planQueryCombinator reader queries .Or .Max
  | .Filter query filter =>
    let p := planQuery reader query
    let pf := planQuery reader filter
    (p.1 ++ pf.1 ++ [.And], p.2 ++ pf.2)
  | .Exclude query exclude =>
    let p := planQuery reader query
    let pe := planQuery reader exclude
    (p.1 ++ pe.1 ++ [.AndNot], p.2 ++ pe.2)

/-- `RocksDBIndexReader::plan_query_combinator`: zero children emit `Zero`,
one child is planned verbatim, n ≥ 2 children are planned left to right
with the join opcode after each subsequent child; in every case a
`CompoundScorer(n, scorer)` score opcode is pushed at the end. -/
def planQueryCombinator (reader : RocksDBIndexReader) (queries : List Query)
    (joinOp : BooleanQueryOp) (scorer : CompoundScorer) :
    List BooleanQueryOp × List ScoreFunctionOp :=
  match queries with
  | [] => ([.Zero], [.CompoundScorer 0 scorer])
  | [q] =>
    let p := planQuery reader q
    (p.1, p.2 ++ [.CompoundScorer 1 scorer])
  | q :: rest =>
    let p := planQuery reader q
    let pr := planQueryRest reader rest joinOp
    (p.1 ++ pr.1, p.2 ++ pr.2 ++ [.CompoundScorer (q :: rest).length scorer])

/-- The `for query in query_iter` tail of `plan_query_combinator`: each
remaining child is planned and followed by the join opcode. -/
def planQueryRest (reader : RocksDBIndexReader) (queries : List Query)
    (joinOp : BooleanQueryOp) : List BooleanQueryOp × List ScoreFunctionOp :=
  match queries with
  | [] => ([], [])
  | q :: rest =>
    let p := planQuery reader q
    let pr := planQueryRest reader rest joinOp
    (p.1 ++ [joinOp] ++ pr.1, p.2 ++ pr.2)

end

/-- One step of the boolean-program loop in `RocksDBIndexReader::search`.
`Load` on a snapshot failure matches the source's `Err(e) => {}`: the error
is discarded and nothing is pushed.  Popping an empty stack models the
`expect("stack underflow")` panics as `none`. -/
def execOp (reader : RocksDBIndexReader) (stack : List DirectoryList) :
    BooleanQueryOp → Option (List DirectoryList)
  | .Zero => some (DirectoryList.Empty :: stack)
  | .One => some (DirectoryList.Full :: stack)
  | .Load fieldRef termRef =>
    match reader.snapshot fieldRef termRef with
    | .found blob => some (DirectoryList.Sparse (decodeBlob blob) false :: stack)
    | .missing => some (DirectoryList.Empty :: stack)
    | .failure => some stack
  | .And =>
    match stack with
    | b :: a :: rest => some (a.intersection b :: rest)
    | _ => none
  | .Or =>
    match stack with
    | b :: a :: rest => some (a.union b :: rest)
    | _ => none
  | .AndNot =>
    match stack with
    | b :: a :: rest => some (a.exclusion b :: rest)
    | _ => none

/-- The boolean-program execution loop of `search`, threading the stack. -/
def execBooleanQuery (reader : RocksDBIndexReader) :
    List BooleanQueryOp → List DirectoryList → Option (List DirectoryList)
  | [], stack => some stack
  | op :: rest, stack =>
    match execOp reader stack op with
    | none => none
    | some s2 => execBooleanQuery reader rest s2

/-- `RocksDBIndexReader::search`: plans the query and runs the boolean
program on an empty stack — and nothing else.  The final stack is dropped,
no candidates are materialized, the score program is never executed, and
the collector is never invoked.  The collector is modelled as the list of
`(DocId, score)` pairs it has received, returned unchanged; `none` models a
stack-underflow panic. -/
def search (reader : RocksDBIndexReader) (collector : List (ℕ × ℚ))
    (query : Query) : Option (List (ℕ × ℚ)) :=
  match execBooleanQuery reader (planQuery reader query).1 [] with
  | none => none
  | some _ => some collector

/-- Modelled from the spec: candidate materialization (spec §4.5 step 3) is
absent from `search.rs`.  Following the spec's words: `Empty` gives no
candidates, `Full` every live DocId, `Sparse(d,false)` enumerates `d`,
`Sparse(d,true)` the segment universe minus `d`. -/
def materializeSpec (univ : List ℕ) : DirectoryList → List ℕ
  | .Empty => []
  | .Full => univ
  | .Sparse d false => d
  | .Sparse d true => univ.filter (fun x => decide (x ∉ d))

/-- Stack arity of a score program, per the opcode convention of spec §4.5
step 4: `Literal` and `TermScore` push one value, `CompoundScorer(n,_)`
pops `n` and pushes one; `none` is underflow. -/
def scoreProgramHeight : List ScoreFunctionOp → ℕ → Option ℕ
  | [], h => some h
  | .Literal _ :: rest, h => scoreProgramHeight rest (h + 1)
  | .TermScore _ _ :: rest, h => scoreProgramHeight rest (h + 1)
  | .CompoundScorer n _ :: rest, h =>
    if n ≤ h then scoreProgramHeight rest (h - n + 1) else none

/-- Executing concatenated programs threads the stack through `Option`. -/
theorem execBooleanQuery_append (reader : RocksDBIndexReader)
    (p q : List BooleanQueryOp) (s : List DirectoryList) :
    execBooleanQuery reader (p ++ q) s =
      (execBooleanQuery reader p s).bind (fun s2 => execBooleanQuery reader q s2) := by
  induction p generalizing s with
  | nil => simp [execBooleanQuery]
  | cons op rest ih =>
    simp only [List.cons_append, execBooleanQuery]
    cases execOp reader s op with
    | none => simp
    | some s2 => simpa using ih s2

/-- Each of the three join opcodes pops two operands and pushes one result. -/
theorem execOp_join (reader : RocksDBIndexReader) (joinOp : BooleanQueryOp)
    (hj : joinOp = .And ∨ joinOp = .Or ∨ joinOp = .AndNot)
    (b a : DirectoryList) (rest : List DirectoryList) :
    ∃ c, execOp reader (b :: a :: rest) joinOp = some (c :: rest) := by
  rcases hj with rfl | rfl | rfl
  · exact ⟨a.intersection b, rfl⟩
  · exact ⟨a.union b, rfl⟩
  · exact ⟨a.exclusion b, rfl⟩

mutual

/-- When every snapshot read succeeds, the boolean program emitted for any
query pushes exactly one `DirectoryList` onto any starting stack. -/
theorem planQuery_bool_arity (reader : RocksDBIndexReader)
    (hs : ∀ f t, reader.snapshot f t ≠ SnapGet.failure) (q : Query) :
    ∀ s, ∃ d, execBooleanQuery reader (planQuery reader q).1 s = some (d :: s) := by
  cases q with
  | MatchAll score =>
    exact fun s => ⟨.Full, by simp [planQuery, execBooleanQuery, execOp]⟩
  | MatchNone =>
    exact fun s => ⟨.Empty, by simp [planQuery, execBooleanQuery, execOp]⟩
  | MatchTerm field term =>
    intro s
    rw [planQuery]
    cases h1 : reader.termDictionary term with
    | none => exact ⟨.Empty, by simp [execBooleanQuery, execOp]⟩
    | some termRef =>
      cases h2 : reader.schema field with
      | none => exact ⟨.Empty, by simp [execBooleanQuery, execOp]⟩
      | some fieldRef =>
        cases h3 : reader.snapshot fieldRef termRef with
        | found blob =>
          exact ⟨.Sparse (decodeBlob blob) false,
            by simp [execBooleanQuery, execOp, h3]⟩
        | missing => exact ⟨.Empty, by simp [execBooleanQuery, execOp, h3]⟩
        | failure => exact absurd h3 (hs fieldRef termRef)
  | Conjunction queries =>
    intro s
    rw [planQuery]
    exact planQueryCombinator_bool_arity reader hs queries .And .Avg
      (Or.inl rfl) s
  | Disjunction queries =>
    intro s
    rw [planQuery]
    exact planQueryCombinator_bool_arity reader hs queries .Or .Avg
      (Or.inr (Or.inl rfl)) s
  | NDisjunction queries minimumShouldMatch =>
    intro s
    rw [planQuery]
    exact planQueryCombinator_bool_arity reader hs queries .Or .Avg
      (Or.inr (Or.inl rfl)) s
  | DisjunctionMax queries =>
    intro s
    rw [planQuery]
    exact planQueryCombinator_bool_arity reader hs queries .Or .Max
      (Or.inr (Or.inl rfl)) s
  | Filter query filter =>
    intro s
    obtain ⟨d1, h1⟩ := planQuery_bool_arity reader hs query s
    obtain ⟨d2, h2⟩ := planQuery_bool_arity reader hs filter (d1 :: s)
    refine ⟨d1.intersection d2, ?_⟩
    rw [planQuery]
    simp only
    rw [execBooleanQuery_append, execBooleanQuery_append, h1, Option.some_bind,
      h2, Option.some_bind]
    simp [execBooleanQuery, execOp]
  | Exclude query exclude =>
    intro s
    obtain ⟨d1, h1⟩ := planQuery_bool_arity reader hs query s
    obtain ⟨d2, h2⟩ := planQuery_bool_arity reader hs exclude (d1 :: s)
    refine ⟨d1.exclusion d2, ?_⟩
    rw [planQuery]
    simp only
    rw [execBooleanQuery_append, execBooleanQuery_append, h1, Option.some_bind,
      h2, Option.some_bind]
    simp [execBooleanQuery, execOp]

/-- Combinator lowering pushes exactly one value for any child list. -/
theorem planQueryCombinator_bool_arity (reader : RocksDBIndexReader)
    (hs : ∀ f t, reader.snapshot f t ≠ SnapGet.failure) (queries : List Query)
    (joinOp : BooleanQueryOp) (scorer : CompoundScorer)
    (hj : joinOp = .And ∨ joinOp = .Or ∨ joinOp = .AndNot) :
    ∀ s, ∃ d, execBooleanQuery reader
      (planQueryCombinator reader queries joinOp scorer).1 s = some (d :: s) := by
  match queries with
  | [] =>
    exact fun s => ⟨.Empty, by simp [planQueryCombinator, execBooleanQuery, execOp]⟩
  | [q] =>
    intro s
    obtain ⟨d, h⟩ := planQuery_bool_arity reader hs q s
    exact ⟨d, by rw [planQueryCombinator]; exact h⟩
  | q :: q2 :: rest =>
    intro s
    obtain ⟨d1, h1⟩ := planQuery_bool_arity reader hs q s
    obtain ⟨d2, h2⟩ := planQueryRest_bool_arity reader hs (q2 :: rest) joinOp hj d1 s
    refine ⟨d2, ?_⟩
    have hstep : (planQueryCombinator reader (q :: q2 :: rest) joinOp scorer).1 =
        (planQuery reader q).1 ++ (planQueryRest reader (q2 :: rest) joinOp).1 := by
      rw [planQueryCombinator]
      simp
    rw [hstep, execBooleanQuery_append, h1, Option.some_bind]
    exact h2

/-- Planning the remaining children of a combinator, each followed by the
join opcode, leaves the stack depth unchanged. -/
theorem planQueryRest_bool_arity (reader : RocksDBIndexReader)
    (hs : ∀ f t, reader.snapshot f t ≠ SnapGet.failure) (queries : List Query)
    (joinOp : BooleanQueryOp)
    (hj : joinOp = .And ∨ joinOp = .Or ∨ joinOp = .AndNot) :
    ∀ d s, ∃ d2, execBooleanQuery reader
      (planQueryRest reader queries joinOp).1 (d :: s) = some (d2 :: s) := by
  match queries with
  | [] =>
    exact fun d s => ⟨d, by simp [planQueryRest, execBooleanQuery]⟩
  | q :: rest =>
    intro d s
    obtain ⟨dq, hq⟩ := planQuery_bool_arity reader hs q (d :: s)
    obtain ⟨c, hc⟩ := execOp_join reader joinOp hj dq d s
    obtain ⟨d2, h2⟩ := planQueryRest_bool_arity reader hs rest joinOp hj c s
    refine ⟨d2, ?_⟩
    rw [planQueryRest]
    simp only
    rw [execBooleanQuery_append, execBooleanQuery_append, hq, Option.some_bind]
    simp only [execBooleanQuery, hc, Option.some_bind]
    exact h2

end

/-- Reader with an empty term dictionary, empty schema, and an empty but
error-free snapshot. -/
def emptyReader : RocksDBIndexReader :=
  ⟨fun _ => none, fun _ => none, fun _ _ => SnapGet.missing⟩

/-- Reader resolving term `0` to TermRef `7` and field `0` to FieldRef `5`,
whose snapshot fails every read. -/
def failingReader : RocksDBIndexReader :=
  ⟨fun t => if t = 0 then some 7 else none,
   fun f => if f = 0 then some 5 else none,
   fun _ _ => SnapGet.failure⟩

/-- C1: the claim fails on the code.  `search` stops after the boolean
program.  For the query `MatchAll(1)` the boolean program leaves `Full` on
the stack, whose materialization (per spec §4.5, absent from the code)
against the live universe `[0,1,2]` is every live DocId — yet `search`
returns with the collector having received no `(DocId, score)` pair at all:
candidates are never materialized, the score program is never executed, and
the collector is never invoked. -/
theorem search_delivers_nothing :
    search emptyReader [] (Query.MatchAll 1) = some [] ∧
    execBooleanQuery emptyReader (planQuery emptyReader (Query.MatchAll 1)).1 []
      = some [DirectoryList.Full] ∧
    materializeSpec [0, 1, 2] DirectoryList.Full = [0, 1, 2] := by
  refine ⟨?_, ?_, rfl⟩
  · simp [search, planQuery, execBooleanQuery, execOp]
  · simp [planQuery, execBooleanQuery, execOp]

/-- C6: the claim fails on the code.  With a snapshot whose reads fail, the
`Load` opcode's `Err(e) => {}` arm silently discards the failure and pushes
nothing: the planner resolves `MatchTerm(0,0)` to a `Load`, executing that
lone `Load` on the failing snapshot leaves the stack empty, and `search`
returns normally with the collector untouched — the failure is never
surfaced to the caller as a query failure. -/
theorem load_failure_swallowed :
    planQuery failingReader (Query.MatchTerm 0 0)
      = ([BooleanQueryOp.Load 5 7], [ScoreFunctionOp.TermScore 5 7]) ∧
    execBooleanQuery failingReader [BooleanQueryOp.Load 5 7] [] = some [] ∧
    search failingReader [] (Query.MatchTerm 0 0) = some [] := by
  refine ⟨?_, rfl, ?_⟩
  · simp [planQuery, failingReader]
  · simp [search, planQuery, failingReader, execBooleanQuery, execOp]

/-- C7: the boolean half of the claim holds — for every query, on an
error-free snapshot, the emitted boolean program leaves exactly one
`DirectoryList` on an empty stack — but the score half fails: `Filter`
(like `Exclude`) emits both children's score opcodes with no combiner, so
for `Filter(MatchAll(1), MatchAll(1))` the score program is
`[Literal 1, Literal 1]`, leaving two values on an initially empty stack
instead of exactly one. -/
theorem planner_arity_mismatch :
    (∀ (reader : RocksDBIndexReader),
        (∀ f t, reader.snapshot f t ≠ SnapGet.failure) →
      ∀ q : Query, ∃ d,
        execBooleanQuery reader (planQuery reader q).1 [] = some [d]) ∧
    (planQuery emptyReader (Query.Filter (Query.MatchAll 1) (Query.MatchAll 1))).2
      = [ScoreFunctionOp.Literal 1, ScoreFunctionOp.Literal 1] ∧
    scoreProgramHeight
      (planQuery emptyReader
        (Query.Filter (Query.MatchAll 1) (Query.MatchAll 1))).2 0 = some 2 := by
  refine ⟨fun reader hs q => planQuery_bool_arity reader hs q [], ?_, ?_⟩
  · simp [planQuery]
  · simp [planQuery, scoreProgramHeight]

/-- Witness for `planner_arity_mismatch` at a concrete reader and query. -/
theorem planner_arity_mismatch_witness :
    ∃ d, execBooleanQuery emptyReader
      (planQuery emptyReader
        (Query.Conjunction [Query.MatchAll 1, Query.MatchNone])).1 [] = some [d] :=
  planner_arity_mismatch.1 emptyReader (fun _ _ h => SnapGet.noConfusion h)
    (Query.Conjunction [Query.MatchAll 1, Query.MatchNone])

/-- Value kinds of stored field values.  The source keys them by byte
strings — `b"val"`, `b"len"`, and `b"tf"` followed by the decimal digits of
the term ordinal — which are pairwise distinct; they are modelled as
injective constructors. -/
inductive ValueKind where
  | val
  | len
  | tf (ord : ℕ)
deriving DecidableEq

/-- Statistic keys.  The source keys statistics by byte strings built by
`KeyBuilder` (a module outside this repository): `b"total_docs"` and the
per-field / per-(field,term) stat names of spec §6, which are pairwise
distinct; they are modelled as injective constructors. -/
inductive StatKey where
  | termDocFrequency (fieldOrd termOrd : ℕ)
  | totalFieldDocs (fieldOrd : ℕ)
  | totalFieldTokens (fieldOrd : ℕ)
  | totalDocs
deriving DecidableEq

/-- `struct SegmentBuilder` from `segment_builder.rs`.  Terms (opaque byte
strings) and field refs are modelled as `ℕ`; the hash maps as functions
into `Option`; the `RoaringBitmap` term directories as Boolean DocId sets. -/
structure SegmentBuilder where
  current_doc : ℕ
  term_dictionary : ℕ → Option ℕ
  current_term_ref : ℕ
  term_directories : ℕ × ℕ → Option (ℕ → Bool)
  statistics : StatKey → Option ℤ
  stored_field_values : ℕ × ℕ × ValueKind → Option (List ℕ)

/-- `enum DocumentInsertError`. -/
inductive DocumentInsertError where
  | SegmentFull
deriving DecidableEq

/-- `SegmentBuilder::new()`. -/
def newSegmentBuilder : SegmentBuilder where
  current_doc := 0
  term_dictionary := fun _ => none
  current_term_ref := 0
  term_directories := fun _ => none
  statistics := fun _ => none
  stored_field_values := fun _ => none

/-- A `kite::Document`: indexed fields (field → term → position list) and
stored fields (field → value bytes).  Rust's unspecified hash-map iteration
order is modelled by association-list order. -/
structure Document where
  indexed_fields : List (ℕ × List (ℕ × List ℕ))
  stored_fields : List (ℕ × List ℕ)

def emptyDocument : Document := ⟨[], []⟩

/-- Pointwise update of a function-modelled hash map (`insert`). -/
def updateFn {α β : Type} [DecidableEq α] (f : α → Option β) (k : α) (v : β) :
    α → Option β :=
  fun x => if x = k then some v else f x

/-- `entry(key).or_insert(0)` followed by `*stat += delta`. -/
def statIncrement (stats : StatKey → Option ℤ) (key : StatKey) (delta : ℤ) :
    StatKey → Option ℤ :=
  updateFn stats key ((stats key).getD 0 + delta)

/-- `frequency_bytes.write_i64::<LittleEndian>`: eight little-endian bytes. -/
def i64LE (n : ℕ) : List ℕ :=
  [n % 256, n / 256 % 256, n / 256 ^ 2 % 256, n / 256 ^ 3 % 256,
   n / 256 ^ 4 % 256, n / 256 ^ 5 % 256, n / 256 ^ 6 % 256, n / 256 ^ 7 % 256]

/-- `SegmentBuilder::get_term_ref`: look the term up, or assign the next
dense ordinal and insert it. -/
def getTermRef (s : SegmentBuilder) (term : ℕ) : ℕ × SegmentBuilder :=
  match s.term_dictionary term with
  | some termRef => (termRef, s)
  | none =>
    (s.current_term_ref,
     { s with
        current_term_ref := s.current_term_ref + 1,
        term_dictionary := updateFn s.term_dictionary term s.current_term_ref })

/-- The body of the `for (term, positions) in tokens.iter()` loop of
`add_document` for one term: resolve the term ref, set the DocId bit in the
posting bitmap, store the `tf<ord>` value when the frequency differs
from 1, and bump the term-document-frequency statistic.  (The local
`term_frequencies` map accumulated by the source is never read and is
omitted.) -/
def processTerm (field docId : ℕ) (s : SegmentBuilder)
    (term : ℕ) (positions : List ℕ) : SegmentBuilder :=
  let frequency := positions.length
  let p := getTermRef s term
  let termRef := p.1
  let s1 := p.2
  let dir := (s1.term_directories (field, termRef)).getD (fun _ => false)
  let s2 := { s1 with
    term_directories := updateFn s1.term_directories (field, termRef)
      (fun d => if d = docId then true else dir d) }
  let s3 :=
    if frequency ≠ 1 then
      { s2 with
        stored_field_values := updateFn s2.stored_field_values
          (field, docId, ValueKind.tf termRef) (i64LE frequency) }
    else s2
  { s3 with
    statistics := statIncrement s3.statistics
      (StatKey.termDocFrequency field termRef) 1 }

/-- The field-length byte.  The source computes
`length = ((field_token_count as f32).sqrt() - 1.0) * 3.0`, caps values
above `255.0` at `255.0`, and casts to `u8` — truncation toward zero, with
negative values (token count 0) going to 0.  `f32` arithmetic is modelled
as exact real arithmetic; the executable form below equals
`max 0 (min 255 ⌊(√t − 1)·3⌋)` by `fieldLengthByte_eq_real`. -/
def fieldLengthByte (t : ℕ) : ℕ :=
  if t = 0 then 0 else min 255 (Nat.sqrt (9 * t) - 3)

/-- `field_token_count`: the sum of the term frequencies (position-list
lengths) of one field's token map. -/
def tokenCount (tokens : List (ℕ × List ℕ)) : ℕ :=
  tokens.foldl (fun acc p => acc + p.2.length) 0

/-- The body of the `for (field, tokens) in doc.indexed_fields.iter()` loop
of `add_document` for one field: process each term, store the field-length
byte when it is nonzero, and bump the per-field statistics.  The source
accumulates `field_token_count` inside the same term loop; as the count
does not depend on the evolving builder state, it is computed by a separate
fold (`tokenCount`) here. -/
def processField (docId : ℕ) (s : SegmentBuilder) (field : ℕ)
    (tokens : List (ℕ × List ℕ)) : SegmentBuilder :=
  let fieldTokenCount := tokenCount tokens
  let s1 := tokens.foldl (fun st p => processTerm field docId st p.1 p.2) s
  let length := fieldLengthByte fieldTokenCount
  let s2 :=
    if length ≠ 0 then
      { s1 with
        stored_field_values := updateFn s1.stored_field_values
          (field, docId, ValueKind.len) [length] }
    else s1
  let s3 := { s2 with
    statistics := statIncrement s2.statistics (StatKey.totalFieldDocs field) 1 }
  { s3 with
    statistics := statIncrement s3.statistics (StatKey.totalFieldTokens field)
      fieldTokenCount }

/-- `SegmentBuilder::add_document`.  The source assigns
`doc_id = current_doc`, increments `current_doc` (u16 wrap-around), and only
then checks `current_doc.checked_add(1)`, failing with `SegmentFull` when
that check — performed on the already-incremented counter — overflows,
i.e. when the incremented counter equals 65535.  Mutation of `&mut self` is
modelled by returning the post-state alongside the result. -/
def addDocument (s : SegmentBuilder) (doc : Document) :
    Except DocumentInsertError ℕ × SegmentBuilder :=
  let docId := s.current_doc
  let s0 := { s with current_doc := (s.current_doc + 1) % 65536 }
  if s0.current_doc = 65535 then
    (Except.error DocumentInsertError.SegmentFull, s0)
  else
    let s1 := doc.indexed_fields.foldl
      (fun st p => processField docId st p.1 p.2) s0
    let s2 := doc.stored_fields.foldl
      (fun st p =>
        { st with
          stored_field_values := updateFn st.stored_field_values
            (p.1, docId, ValueKind.val) p.2 }) s1
    let s3 := { s2 with
      statistics := statIncrement s2.statistics StatKey.totalDocs 1 }
    (Except.ok docId, s3)

/-- C8: the claim fails on the code.  The overflow check runs AFTER the
increment, so the call that would allocate DocId 65534 — the 65,535th
document, which the claim says must succeed — already returns
`Err(SegmentFull)`, while the call allocating DocId 65533 still succeeds:
the segment accepts only 65,534 documents, DocIds 0 through 65,533. -/
theorem segment_full_off_by_one :
    (addDocument { newSegmentBuilder with current_doc := 65533 }
      emptyDocument).1 = Except.ok 65533 ∧
    (addDocument { newSegmentBuilder with current_doc := 65534 }
      emptyDocument).1 = Except.error DocumentInsertError.SegmentFull := by
  exact ⟨rfl, rfl⟩

/-- C10: when `add_document` returns `Err(SegmentFull)`, the term
dictionary, the term-ref counter, the term directories, the statistics and
the stored field values are exactly as before the call; the only changed
field is `current_doc`, which has already been incremented. -/
theorem addDocument_error_frame (s : SegmentBuilder) (doc : Document)
    (hlt : s.current_doc < 65536)
    (herr : (addDocument s doc).1 = Except.error DocumentInsertError.SegmentFull) :
    (addDocument s doc).2.term_dictionary = s.term_dictionary ∧
    (addDocument s doc).2.current_term_ref = s.current_term_ref ∧
    (addDocument s doc).2.term_directories = s.term_directories ∧
    (addDocument s doc).2.statistics = s.statistics ∧
    (addDocument s doc).2.stored_field_values = s.stored_field_values ∧
    (addDocument s doc).2.current_doc = s.current_doc + 1 := by
  by_cases h : (s.current_doc + 1) % 65536 = 65535
  · refine ⟨?_, ?_, ?_, ?_, ?_, ?_⟩ <;> simp [addDocument, h] <;> omega
  · exfalso
    rw [addDocument] at herr
    simp only [h, if_false] at herr
    exact Except.noConfusion herr

/-- `get_term_ref` never touches the stored field values. -/
theorem getTermRef_stored (s : SegmentBuilder) (term : ℕ) :
    (getTermRef s term).2.stored_field_values = s.stored_field_values := by
  rw [getTermRef]
  cases s.term_dictionary term <;> rfl

/-- Processing one term writes stored values only under `tf<ord>` keys, so
`len` entries are untouched. -/
theorem processTerm_stored_len (field docId : ℕ) (st : SegmentBuilder)
    (term : ℕ) (ps : List ℕ) (f' d' : ℕ) :
    (processTerm field docId st term ps).stored_field_values (f', d', ValueKind.len)
      = st.stored_field_values (f', d', ValueKind.len) := by
  rw [processTerm]
  simp only
  split_ifs with h
  · simp only [updateFn]
    rw [if_neg (by simp), getTermRef_stored]
  · rw [getTermRef_stored]

/-- The term loop of one field leaves all `len` entries untouched. -/
theorem foldTerms_stored_len (field docId : ℕ) (tokens : List (ℕ × List ℕ))
    (st : SegmentBuilder) (f' d' : ℕ) :
    (tokens.foldl (fun st p => processTerm field docId st p.1 p.2) st).stored_field_values
        (f', d', ValueKind.len)
      = st.stored_field_values (f', d', ValueKind.len) := by
  induction tokens generalizing st with
  | nil => rfl
  | cons p rest ih => rw [List.foldl_cons, ih, processTerm_stored_len]

/-- After processing a field, its own `len` entry at the processed DocId
holds the field-length byte — or is untouched when that byte is zero. -/
theorem processField_stored_len_self (docId : ℕ) (st : SegmentBuilder)
    (field : ℕ) (tokens : List (ℕ × List ℕ)) :
    (processField docId st field tokens).stored_field_values
        (field, docId, ValueKind.len)
      = if fieldLengthByte (tokenCount tokens) = 0 then
          st.stored_field_values (field, docId, ValueKind.len)
        else some [fieldLengthByte (tokenCount tokens)] := by
  by_cases hB : fieldLengthByte (tokenCount tokens) = 0
  · simp [processField, hB, foldTerms_stored_len]
  · simp [processField, hB, updateFn]

/-- Processing a different field leaves this field's `len` entry untouched. -/
theorem processField_stored_len_ne (docId : ℕ) (st : SegmentBuilder)
    (field : ℕ) (tokens : List (ℕ × List ℕ)) (f' d' : ℕ) (hne : field ≠ f') :
    (processField docId st field tokens).stored_field_values
        (f', d', ValueKind.len)
      = st.stored_field_values (f', d', ValueKind.len) := by
  rw [processField]
  simp only
  split_ifs with h
  · simp only [updateFn]
    rw [if_neg (by simp [Ne.symm hne]), foldTerms_stored_len]
  · rw [foldTerms_stored_len]

/-- The field loop leaves the `len` entries of fields not in the document
untouched. -/
theorem foldFields_stored_len_notmem (docId : ℕ)
    (fields : List (ℕ × List (ℕ × List ℕ))) (st : SegmentBuilder) (f : ℕ)
    (hf : f ∉ fields.map Prod.fst) :
    (fields.foldl (fun st p => processField docId st p.1 p.2) st).stored_field_values
        (f, docId, ValueKind.len)
      = st.stored_field_values (f, docId, ValueKind.len) := by
  induction fields generalizing st with
  | nil => rfl
  | cons p rest ih =>
    have hp : p.1 ≠ f := fun h => hf (by simp [← h])
    have hrest : f ∉ rest.map Prod.fst := fun h => hf (by simp [h])
    rw [List.foldl_cons, ih _ hrest,
      processField_stored_len_ne docId st p.1 p.2 f docId hp]

/-- The `len` entry of a field occurring in the document, after the whole
field loop. -/
theorem foldFields_stored_len_mem (docId : ℕ)
    (fields : List (ℕ × List (ℕ × List ℕ))) (st : SegmentBuilder)
    (f : ℕ) (tokens : List (ℕ × List ℕ))
    (hmem : (f, tokens) ∈ fields) (hnodup : (fields.map Prod.fst).Nodup) :
    (fields.foldl (fun st p => processField docId st p.1 p.2) st).stored_field_values
        (f, docId, ValueKind.len)
      = if fieldLengthByte (tokenCount tokens) = 0 then
          st.stored_field_values (f, docId, ValueKind.len)
        else some [fieldLengthByte (tokenCount tokens)] := by
  induction fields generalizing st with
  | nil => cases hmem
  | cons p rest ih =>
    rw [List.map_cons, List.nodup_cons] at hnodup
    rcases List.mem_cons.mp hmem with heq | hmem2
    · subst heq
      rw [List.foldl_cons,
        foldFields_stored_len_notmem docId rest _ f (by simpa using hnodup.1),
        processField_stored_len_self]
    · have hp : p.1 ≠ f := by
        intro h
        apply hnodup.1
        rw [h]
        exact List.mem_map_of_mem Prod.fst hmem2
      rw [List.foldl_cons, ih _ hmem2 hnodup.2,
        processField_stored_len_ne docId st p.1 p.2 f docId hp]

/-- The stored-fields loop writes only `val` entries, so `len` entries are
untouched. -/
theorem foldStored_stored_len (docId : ℕ) (stored : List (ℕ × List ℕ))
    (st : SegmentBuilder) (f d : ℕ) :
    (stored.foldl (fun st p =>
        { st with stored_field_values := updateFn st.stored_field_values (p.1, docId, ValueKind.val) p.2 })
        st).stored_field_values (f, d, ValueKind.len)
      = st.stored_field_values (f, d, ValueKind.len) := by
  induction stored generalizing st with
  | nil => rfl
  | cons p rest ih =>
    rw [List.foldl_cons, ih]
    simp [updateFn]

/-- What a successful `add_document` leaves under a field's `len` key: the
quantized field-length byte, or the entry untouched when the byte is 0. -/
theorem addDocument_stored_len (s : SegmentBuilder) (doc : Document)
    (f : ℕ) (tokens : List (ℕ × List ℕ))
    (hok : (s.current_doc + 1) % 65536 ≠ 65535)
    (hmem : (f, tokens) ∈ doc.indexed_fields)
    (hnodup : (doc.indexed_fields.map Prod.fst).Nodup) :
    (addDocument s doc).2.stored_field_values (f, s.current_doc, ValueKind.len)
      = if fieldLengthByte (tokenCount tokens) = 0 then
          s.stored_field_values (f, s.current_doc, ValueKind.len)
        else some [fieldLengthByte (tokenCount tokens)] := by
  rw [addDocument]
  simp only
  rw [if_neg (by simpa using hok)]
  simp only
  rw [foldStored_stored_len, foldFields_stored_len_mem _ _ _ _ _ hmem hnodup]

/-- Witness for `addDocument_error_frame` at the concrete full builder. -/
theorem addDocument_error_frame_witness :
    (addDocument { newSegmentBuilder with current_doc := 65534 }
        emptyDocument).2.term_dictionary
      = ({ newSegmentBuilder with current_doc := 65534 } : SegmentBuilder).term_dictionary ∧
    (addDocument { newSegmentBuilder with current_doc := 65534 }
        emptyDocument).2.current_term_ref
      = ({ newSegmentBuilder with current_doc := 65534 } : SegmentBuilder).current_term_ref ∧
    (addDocument { newSegmentBuilder with current_doc := 65534 }
        emptyDocument).2.term_directories
      = ({ newSegmentBuilder with current_doc := 65534 } : SegmentBuilder).term_directories ∧
    (addDocument { newSegmentBuilder with current_doc := 65534 }
        emptyDocument).2.statistics
      = ({ newSegmentBuilder with current_doc := 65534 } : SegmentBuilder).statistics ∧
    (addDocument { newSegmentBuilder with current_doc := 65534 }
        emptyDocument).2.stored_field_values
      = ({ newSegmentBuilder with current_doc := 65534 } : SegmentBuilder).stored_field_values ∧
    (addDocument { newSegmentBuilder with current_doc := 65534 }
        emptyDocument).2.current_doc
      = ({ newSegmentBuilder with current_doc := 65534 } : SegmentBuilder).current_doc + 1 :=
  addDocument_error_frame { newSegmentBuilder with current_doc := 65534 }
    emptyDocument (by decide) rfl

/-- Pin down `Nat.sqrt` at a concrete value from its defining bounds. -/
theorem natSqrt_eval {n q : ℕ} (h1 : q * q ≤ n) (h2 : n < (q + 1) * (q + 1)) :
    Nat.sqrt n = q := by
  have ha := Nat.le_sqrt.mpr h1
  have hb := Nat.sqrt_lt.mpr h2
  omega

/-- The executable `fieldLengthByte` equals the exact-real reading of the
source expression: clamp of the TRUNCATED `(√t − 1) · 3` to `[0, 255]`. -/
theorem fieldLengthByte_eq_real (t : ℕ) :
    (fieldLengthByte t : ℤ) = max 0 (min 255 ⌊((Real.sqrt t) - 1) * 3⌋) := by
  rcases Nat.eq_zero_or_pos t with rfl | ht
  · have h0 : ((Real.sqrt ((0 : ℕ) : ℝ) - 1) * 3 : ℝ) = ((-3 : ℤ) : ℝ) := by
      rw [show ((0 : ℕ) : ℝ) = (0 : ℝ) by norm_num, Real.sqrt_zero]
      push_cast; ring
    have hf : ⌊((Real.sqrt ((0 : ℕ) : ℝ) - 1) * 3 : ℝ)⌋ = (-3 : ℤ) := by
      rw [h0, Int.floor_intCast]
    rw [fieldLengthByte, if_pos rfl, hf]
    norm_num
  · have hsq : Real.sqrt (9 * (t : ℝ)) = 3 * Real.sqrt t := by
      rw [show (9 : ℝ) * t = 3 ^ 2 * t by ring,
        Real.sqrt_mul (by positivity), Real.sqrt_sq (by norm_num)]
    have hfloor : ⌊((Real.sqrt t) - 1) * 3⌋ = (Nat.sqrt (9 * t) : ℤ) - 3 := by
      have heq : ((Real.sqrt t) - 1) * 3
          = Real.sqrt ((9 * t : ℕ) : ℝ) - ((3 : ℤ) : ℝ) := by
        push_cast
        rw [hsq]
        ring
      rw [heq, Int.floor_sub_int, Real.floor_real_sqrt_eq_nat_sqrt]
    have h3 : 3 ≤ Nat.sqrt (9 * t) := Nat.le_sqrt.mpr (by omega)
    rw [hfloor]
    rw [fieldLengthByte, if_neg (by omega)]
    have hcast : ((min 255 (Nat.sqrt (9 * t) - 3) : ℕ) : ℤ)
        = min 255 ((Nat.sqrt (9 * t) : ℤ) - 3) := by
      push_cast [Nat.cast_sub h3]
      rfl
    rw [hcast]
    omega

/-- The rounding of `(√5 − 1) · 3 ≈ 3.708` is 4. -/
theorem round_sqrt_five : round ((Real.sqrt 5 - 1) * 3) = 4 := by
  have h1 : (13 : ℝ) / 6 ≤ Real.sqrt 5 := by
    rw [Real.le_sqrt (by norm_num) (by norm_num)]
    norm_num
  have h2 : Real.sqrt 5 < 5 / 2 := by
    rw [Real.sqrt_lt' (by norm_num)]
    norm_num
  rw [round_eq]
  have h4 : ⌊(Real.sqrt 5 - 1) * 3 + 1 / 2⌋ = (4 : ℤ) := by
    rw [Int.floor_eq_iff]
    constructor
    · push_cast
      linarith
    · push_cast
      linarith
  rw [h4]

/-- C9: counterexample.  For an indexed field with total token count 5, the
code stores the byte 3 under the `len` value-kind — the truncation of
`(√5 − 1)·3 ≈ 3.708` — whereas the claim's `clamp(round((√5 − 1)·3), 0, 255)`
equals 4: the `as u8` cast truncates, it does not round. -/
theorem len_byte_truncates_not_rounds :
    (addDocument newSegmentBuilder
        ⟨[(0, [(7, [0, 1, 2, 3, 4])])], []⟩).2.stored_field_values
        (0, 0, ValueKind.len) = some [3] ∧
    round ((Real.sqrt 5 - 1) * 3) = 4 := by
  constructor
  · have h45 : Nat.sqrt 45 = 6 := natSqrt_eval (by norm_num) (by norm_num)
    have h5 : fieldLengthByte (tokenCount [(7, [0, 1, 2, 3, 4])]) = 3 := by
      rw [show tokenCount [(7, [0, 1, 2, 3, 4])] = 5 from rfl]
      rw [fieldLengthByte, if_neg (by norm_num),
        show 9 * 5 = 45 from rfl, h45]
      omega
    have hmain := addDocument_stored_len newSegmentBuilder
      ⟨[(0, [(7, [0, 1, 2, 3, 4])])], []⟩ 0 [(7, [0, 1, 2, 3, 4])]
      (by decide) (by simp) (by simp)
    rw [show newSegmentBuilder.current_doc = 0 from rfl] at hmain
    rw [hmain, h5]
    norm_num
  · exact round_sqrt_five

/-- C9 (amended): for every indexed field of a document with total token
count t, a successful `add_document` stores under the `len` value-kind the
single byte `clamp(trunc((√t − 1)·3), 0, 255)` — truncation toward zero,
not rounding — and leaves the `len` entry untouched (hence absent for a
fresh DocId) when that byte is 0. -/
theorem addDocument_len_quantization (s : SegmentBuilder) (doc : Document)
    (f : ℕ) (tokens : List (ℕ × List ℕ))
    (hok : (s.current_doc + 1) % 65536 ≠ 65535)
    (hmem : (f, tokens) ∈ doc.indexed_fields)
    (hnodup : (doc.indexed_fields.map Prod.fst).Nodup)
    (hfresh : s.stored_field_values (f, s.current_doc, ValueKind.len) = none) :
    ((addDocument s doc).2.stored_field_values (f, s.current_doc, ValueKind.len)
      = if fieldLengthByte (tokenCount tokens) = 0 then none
        else some [fieldLengthByte (tokenCount tokens)]) ∧
    ∀ t : ℕ, (fieldLengthByte t : ℤ)
      = max 0 (min 255 ⌊((Real.sqrt t) - 1) * 3⌋) := by
  refine ⟨?_, fieldLengthByte_eq_real⟩
  rw [addDocument_stored_len s doc f tokens hok hmem hnodup, hfresh]

/-- Witness for `addDocument_len_quantization` at a concrete document. -/
theorem addDocument_len_quantization_witness :
    ((addDocument newSegmentBuilder
        ⟨[(0, [(7, [0, 5, 9])])], []⟩).2.stored_field_values
        (0, 0, ValueKind.len)
      = if fieldLengthByte (tokenCount [(7, [0, 5, 9])]) = 0 then none
        else some [fieldLengthByte (tokenCount [(7, [0, 5, 9])])]) ∧
    ∀ t : ℕ, (fieldLengthByte t : ℤ)
      = max 0 (min 255 ⌊((Real.sqrt t) - 1) * 3⌋) :=
  addDocument_len_quantization newSegmentBuilder ⟨[(0, [(7, [0, 5, 9])])], []⟩
    0 [(7, [0, 5, 9])] (by decide) (by simp) (by simp) rfl
